import Mathlib

/-!
# Verification of the nawala-checker DNS blocking checker

A shallow embedding of the core checking engine of the
`H0llyW00dzZ/nawala-checker` Go repository (package `src/nawala`):
domain validation (`domain.go`), the keyword matcher (`dns.go`), the
in-memory TTL cache (`cache.go`), the retry controller, the per-domain
failover check and the batch dispatcher (`checker.go`), and the resolver
registry mutations (`option.go`).

Modelling conventions:
* Go machine integers are modelled as `Nat`/`Int`; `time.Duration`
  arithmetic (int64 nanoseconds) wraps through `wrap64`.
* Go `error` values are the inductive `GoError`; `fmt.Errorf("%w: ...", e, ...)`
  becomes the `wrapped` constructor, and `errors.Is` becomes `errorIs`.
* The network is an oracle (`RetryEnv`): for each attempt it yields either a
  transport error or a parsed DNS response; context cancellation during a
  backoff wait is an oracle as well.  Executions additionally record an
  instrumentation trace (probe and wait events) used to state the
  no-network and backoff properties; the trace is not part of the Go
  return value.
* Go strings are modelled through their character lists; the ASCII
  fragments of `strings.ToLower`/`ToUpper`/`TrimSpace`/`EqualFold` are
  used (all keywords, domain constants and separators involved are ASCII).
-/

namespace Nawala

/-- The sentinel errors of `errors.go`. -/
inductive Sentinel where
  | noDNSServers
  | allDNSFailed
  | invalidDomain
  | dnsTimeout
  | internalPanic
  | nxdomain
deriving DecidableEq, Repr

/-- Go `error` values occurring in the checker: bare sentinels, sentinels
wrapped by `fmt.Errorf("%w: ...")`, opaque transport errors from the DNS
exchange, and the two context errors. -/
inductive GoError where
  | sentinel (s : Sentinel)
  | wrapped (s : Sentinel) (text : String)
  | transport (id : Nat)
  | ctxCanceled
  | ctxDeadlineExceeded
deriving DecidableEq, Repr

/-- `errors.Is(e, sentinel)`: a bare or wrapped sentinel matches itself. -/
def errorIs : GoError → Sentinel → Bool
  | .sentinel s, t => s == t
  | .wrapped s _, t => s == t
  | _, _ => false

/-- `Result` from the types file: the outcome of checking one domain. -/
structure Result where
  Domain : String
  Blocked : Bool
  Server : String
  Error : Option GoError
deriving DecidableEq, Repr

/-- The zero value `Result{}`. -/
def emptyResult : Result := { Domain := "", Blocked := false, Server := "", Error := none }

/-- `DNSServer` from the types file. -/
structure DNSServer where
  Address : String
  Keyword : String
  QueryType : String
deriving DecidableEq, Repr

/-- One resource record of a parsed response, by its canonical text
rendering `rr.String()` (the only view `containsKeyword` uses). -/
structure RR where
  text : String
deriving DecidableEq, Repr

/-- A parsed DNS response (`*dns.Msg`): answer, authority and additional
sections. -/
structure DNSMsg where
  Answer : List RR
  Ns : List RR
  Extra : List RR
deriving DecidableEq, Repr

/-! ## Go string helpers (ASCII fragment) -/

/-- ASCII whitespace trimmed by `strings.TrimSpace`. -/
def goIsSpace (c : Char) : Bool :=
  c == ' ' || c == '\t' || c == '\n' || c == '\r'

/-- `strings.TrimSpace` (ASCII fragment). -/
def goTrimSpace (l : List Char) : List Char :=
  ((l.dropWhile goIsSpace).reverse.dropWhile goIsSpace).reverse

/-- `strings.ToLower` (ASCII fragment). -/
def goToLower (l : List Char) : List Char := l.map Char.toLower

/-- `strings.ToUpper` (ASCII fragment). -/
def goToUpper (l : List Char) : List Char := l.map Char.toUpper

/-- `strings.Contains s sub`. -/
def strContains (s sub : List Char) : Bool :=
  (List.range (s.length + 1)).any fun i => sub.isPrefixOf (s.drop i)

/-- `strings.EqualFold` (ASCII fragment): equality after lowering. -/
def goEqualFold (a b : List Char) : Bool := goToLower a == goToLower b

/-- `strings.TrimSuffix domain "."`: drop one trailing dot if present. -/
def goTrimSuffixDot (l : List Char) : List Char :=
  if l.getLast? == some '.' then l.dropLast else l

/-- `strings.Split l sep` for a single-character separator. -/
def splitOnChar (sep : Char) : List Char → List (List Char)
  | [] => [[]]
  | c :: rest =>
    let r := splitOnChar sep rest
    if c == sep then [] :: r
    else
      match r with
      | [] => [[c]]
      | h :: t => (c :: h) :: t

/-- Go `len` of a string: its UTF-8 byte length. -/
def utf8Len (l : List Char) : Nat := (l.map Char.utf8Size).sum

/-! ## Keyword matcher (`dns.go`, `containsKeyword`) -/

/-- `containsKeyword(msg, keyword)`: scan the Answer, Ns and Extra sections
for the lowered keyword inside each record's lowered text rendering; a nil
message never matches. -/
def containsKeyword : Option DNSMsg → String → Bool
  | none, _ => false
  | some msg, keyword =>
    let kw := goToLower keyword.data
    [msg.Answer, msg.Ns, msg.Extra].any fun sec =>
      sec.any fun rr => strContains (goToLower rr.text.data) kw

/-! ## Domain validation (`domain.go`) -/

/-- The character classes admitted inside a label, by rune comparison as in
the Go switch: `a-z` (97-122), `A-Z` (65-90), `0-9` (48-57), hyphen,
underscore. -/
def isLabelChar (c : Char) : Bool :=
  ((97 ≤ c.toNat && c.toNat ≤ 122) || (65 ≤ c.toNat && c.toNat ≤ 90)
    || (48 ≤ c.toNat && c.toNat ≤ 57) || c == '-' || c == '_')

/-- `isValidLabel`: 1-63 bytes, no leading or trailing hyphen, only
letters, digits, hyphens and underscores. -/
def isValidLabel (label : List Char) : Bool :=
  if utf8Len label == 0 || utf8Len label > 63 then false
  else if label.head? == some '-' || label.getLast? == some '-' then false
  else label.all isLabelChar

/-- An ASCII letter, by rune comparison as in the Go TLD loop. -/
def isAsciiLetter (c : Char) : Bool :=
  (97 ≤ c.toNat && c.toNat ≤ 122) || (65 ≤ c.toNat && c.toNat ≤ 90)

/-- `isValidTLD`: at least 2 bytes; a Punycode `xn--` label passes; otherwise
letters only. -/
def isValidTLD (label : List Char) : Bool :=
  if utf8Len label < 2 then false
  else if utf8Len label > 4 && goEqualFold (label.take 4) ['x', 'n', '-', '-'] then true
  else label.all isAsciiLetter

/-- The indexed loop of `IsValidDomain`: every label must be valid, and the
last one must additionally be a valid TLD. -/
def labelsOK : List (List Char) → Bool
  | [] => true
  | [last] => isValidLabel last && isValidTLD last
  | lab :: rest => isValidLabel lab && labelsOK rest

/-- `IsValidDomain`. -/
def IsValidDomain (domain : String) : Bool :=
  let d := goTrimSuffixDot domain.data
  if d == [] || utf8Len d > 255 then false
  else
    let labels := splitOnChar '.' d
    if labels.length < 2 then false
    else labelsOK labels

/-- `normalizeDomain`: lowercase and trim whitespace. -/
def normalizeDomain (domain : String) : String :=
  ⟨goToLower (goTrimSpace domain.data)⟩

/-! ## Query type parsing (`dns.go`, `parseQueryType`) -/

/-- `parseQueryType`: map the configured record-type string to the dns
library constant (numeric DNS type codes); unknown strings default to `A`. -/
def parseQueryType (qtype : String) : Nat :=
  let q : String := ⟨goToUpper (goTrimSpace qtype.data)⟩
  if q == "A" then 1
  else if q == "AAAA" then 28
  else if q == "CNAME" then 5
  else if q == "MX" then 15
  else if q == "NS" then 2
  else if q == "TXT" then 16
  else if q == "SOA" then 6
  else if q == "SRV" then 33
  else if q == "ANY" then 255
  else 1

/-! ## Result cache (`cache.go`) -/

/-- `cacheEntry`: a cached result with its expiry instant (Unix
nanoseconds). -/
structure CacheEntry where
  result : Result
  expiresAt : Int
deriving DecidableEq, Repr

/-- The `map[string]cacheEntry` of `memoryCache`, as an association list
with at most one binding per key. -/
abbrev CacheSt := List (String × CacheEntry)

/-- Map indexing `entries[key]`. -/
def cacheLookup : CacheSt → String → Option CacheEntry
  | [], _ => none
  | (k, e) :: rest, key => if k == key then some e else cacheLookup rest key

/-- Map update `entries[key] = e`. -/
def cacheInsert : CacheSt → String → CacheEntry → CacheSt
  | [], key, e => [(key, e)]
  | (k, e0) :: rest, key, e =>
    if k == key then (key, e) :: rest else (k, e0) :: cacheInsert rest key e

/-- Map deletion `delete(entries, key)`. -/
def cacheErase : CacheSt → String → CacheSt
  | [], _ => []
  | (k, e0) :: rest, key => if k == key then rest else (k, e0) :: cacheErase rest key

/-- The write-locked second phase of `memoryCache.Get` on an expired entry:
re-read the entry and delete it only if it still carries the observed
`expiresAt` timestamp.  The state `st` is the map as it stands when the
write lock is taken, which under concurrency may differ from the state the
entry was observed in. -/
def memoryCacheLazyDelete (st : CacheSt) (key : String) (observed : CacheEntry) : CacheSt :=
  match cacheLookup st key with
  | some cur => if cur.expiresAt == observed.expiresAt then cacheErase st key else st
  | none => st

/-- `memoryCache.Get` run to completion without interleaving: look the key
up; absent entries miss; entries whose expiry lies strictly before `now`
miss and are lazily deleted through the double-checked delete; live entries
hit.  Returns the Go return value paired with the resulting map state. -/
def memoryCacheGet (st : CacheSt) (now : Int) (key : String) : (Result × Bool) × CacheSt :=
  match cacheLookup st key with
  | none => ((emptyResult, false), st)
  | some entry =>
    if now > entry.expiresAt then
      ((emptyResult, false), memoryCacheLazyDelete st key entry)
    else ((entry.result, true), st)

/-- `memoryCache.Set`: store the value with expiry `now + ttl`. -/
def memoryCacheSet (st : CacheSt) (ttl now : Int) (key : String) (val : Result) : CacheSt :=
  cacheInsert st key { result := val, expiresAt := now + ttl }

/-- `memoryCache.Flush`. -/
def memoryCacheFlush (_st : CacheSt) : CacheSt := []

/-! ## Retry controller (`checker.go`, `queryWithRetries`) -/

/-- What `queryDNS` yields at one attempt: a transport error or a parsed
response. -/
inductive ProbeStep where
  | err (e : GoError)
  | resp (msg : DNSMsg)
deriving DecidableEq, Repr

/-- The network and context oracle for one `queryWithRetries` call:
`probes k` is the outcome of the exchange at attempt `k` (when that attempt
runs), and `ctxErrAtBackoff k` is `some e` when the context is done (with
`ctx.Err() = e`) during the backoff wait preceding attempt `k`. -/
structure RetryEnv where
  probes : Nat → ProbeStep
  ctxErrAtBackoff : Nat → Option GoError

/-- Instrumentation events of a `queryWithRetries` execution: one `probe`
per executed DNS exchange and one `wait` (with its duration in
nanoseconds) per completed backoff sleep. -/
inductive RetryEvent where
  | probe (attempt : Nat)
  | wait (attempt : Nat) (backoff : Int)
deriving DecidableEq, Repr

/-- Interpret an integer as a wrapped Go `int64`. -/
def wrap64 (z : Int) : Int :=
  let m := z % (2 : Int) ^ 64
  if m < (2 : Int) ^ 63 then m else m - (2 : Int) ^ 64

/-- The backoff before attempt `k ≥ 1`:
`min(time.Duration(1 << uint(k-1)) * time.Second, 30*time.Second)` in Go
int64 nanosecond arithmetic. -/
def goBackoffNanos (attempt : Nat) : Int :=
  min (wrap64 (wrap64 ((2 : Int) ^ (attempt - 1)) * 1000000000)) (30 * 1000000000)

/-- The Go pair `(Result, error)` returned by `queryWithRetries`, together
with the instrumentation: the number of DNS exchanges performed and the
event trace. -/
structure RetryOutput where
  result : Result
  err : Option GoError
  probes : Nat
  events : List RetryEvent
deriving DecidableEq, Repr

/-- The loop of `queryWithRetries`, with `fuel` iterations remaining,
starting at attempt index `attempt`, carrying `lastErr` and the remembered
clear outcome `best` (`bestResult`/`responded`).  Before an attempt that
both is not the first and follows some recorded error, the capped
exponential backoff runs (aborting with `ctx.Err()` if the context is done
during it); the attempt then probes, returning a blocked outcome at the
first keyword match, recording the first clear response, and remembering
errors in `lastErr`. -/
def queryWithRetriesAux (domain : String) (srv : DNSServer) (env : RetryEnv) :
    Nat → Nat → Option GoError → Option Result → RetryOutput
  | 0, _, lastErr, best =>
    match best with
    | some r => { result := r, err := none, probes := 0, events := [] }
    | none => { result := emptyResult, err := lastErr, probes := 0, events := [] }
  | fuel + 1, attempt, lastErr, best =>
    let probePhase : List RetryEvent → RetryOutput := fun pre =>
      match env.probes attempt with
      | .err e =>
        let o := queryWithRetriesAux domain srv env fuel (attempt + 1) (some e) best
        { o with probes := o.probes + 1, events := pre ++ RetryEvent.probe attempt :: o.events }
      | .resp msg =>
        if containsKeyword (some msg) srv.Keyword then
          { result := { Domain := domain, Blocked := true, Server := srv.Address, Error := none },
            err := none, probes := 1, events := pre ++ [RetryEvent.probe attempt] }
        else
          let best' :=
            if best.isNone then
              some { Domain := domain, Blocked := false, Server := srv.Address, Error := none }
            else best
          let o := queryWithRetriesAux domain srv env fuel (attempt + 1) lastErr best'
          { o with probes := o.probes + 1, events := pre ++ RetryEvent.probe attempt :: o.events }
    if 0 < attempt ∧ lastErr.isSome then
      match env.ctxErrAtBackoff attempt with
      | some e => { result := emptyResult, err := some e, probes := 0, events := [] }
      | none => probePhase [RetryEvent.wait attempt (goBackoffNanos attempt)]
    else probePhase []

/-- `queryWithRetries(ctx, domain, srv, qtype)`: `maxRetries + 1` loop
iterations starting from attempt 0 with no recorded error and no
remembered clear outcome. -/
def queryWithRetries (maxRetries : Nat) (domain : String) (srv : DNSServer)
    (env : RetryEnv) : RetryOutput :=
  queryWithRetriesAux domain srv env (maxRetries + 1) 0 none none

/-! ## Per-domain check (`checker.go`, `checkSingle`) -/

/-- The configuration fields of `Checker` the claims depend on.  The
transport fields (`timeout`, `edns0Size`, `dnsClient`) only shape the
behaviour of the DNS exchange, which the oracle `RetryEnv` abstracts. -/
structure Checker where
  servers : List DNSServer
  maxRetries : Nat
  concurrency : Nat
  cacheTTL : Int
deriving Repr

/-- The composite cache key
`fmt.Sprintf("%s:%s:%s:%d", domain, srv.Address, srv.Keyword, qtype)`. -/
def cacheKey (domain : String) (srv : DNSServer) (qtype : Nat) : String :=
  domain ++ ":" ++ srv.Address ++ ":" ++ srv.Keyword ++ ":" ++ toString qtype

/-- The failover loop of `checkSingle` over the (indexed) server list.
`env i` is the retry oracle for the server at position `i`; `cache` is
`none` when caching is disabled (`c.cache == nil`).  Per server: consult
the cache under the composite key and return a hit at once; otherwise run
the retry controller, moving to the next server on error and caching and
returning the result on success.  When every server has failed, return the
`ErrAllDNSFailed` outcome.  The third component counts DNS exchanges. -/
def checkSingleLoop (cfg : Checker) (env : Nat → RetryEnv) (now : Int) (domain : String) :
    List (Nat × DNSServer) → Option CacheSt → Result × Option CacheSt × Nat
  | [], cache =>
    ({ Domain := domain, Blocked := false, Server := "",
       Error := some (.sentinel .allDNSFailed) }, cache, 0)
  | (i, srv) :: rest, cache =>
    let qtype := parseQueryType srv.QueryType
    let key := cacheKey domain srv qtype
    let afterGet : Option CacheSt → Result × Option CacheSt × Nat := fun cache1 =>
      let q := queryWithRetries cfg.maxRetries domain srv (env i)
      match q.err with
      | some _ =>
        let o := checkSingleLoop cfg env now domain rest cache1
        (o.1, o.2.1, q.probes + o.2.2)
      | none =>
        match cache1 with
        | some st => (q.result, some (memoryCacheSet st cfg.cacheTTL now key q.result), q.probes)
        | none => (q.result, none, q.probes)
    match cache with
    | some st =>
      let g := memoryCacheGet st now key
      if g.1.2 then (g.1.1, some g.2, 0)
      else afterGet (some g.2)
    | none => afterGet none

/-- `checkSingle(ctx, domain)`: normalize, validate (an invalid domain
yields the wrapped `ErrInvalidDomain` outcome with no DNS exchange), then
run the failover loop over the configured servers. -/
def checkSingleGo (cfg : Checker) (env : Nat → RetryEnv) (now : Int) (domain : String)
    (cache : Option CacheSt) : Result × Option CacheSt × Nat :=
  let d := normalizeDomain domain
  if IsValidDomain d then
    checkSingleLoop cfg env now d cfg.servers.enum cache
  else
    ({ Domain := d, Blocked := false, Server := "",
       Error := some (.wrapped .invalidDomain d) }, cache, 0)

/-! ## Dispatcher (`checker.go`, `Checker.Check`) -/

/-- What one item's worker goroutine does: either its `checkSingle` panics
somewhere (the deferred `recover` turns the panic value into the item's
error), or it completes against the snapshot of the shared state it
observed (its retry oracles, its view of the cache, its clock). -/
inductive ItemRun where
  | panics (msg : String)
  | completes (env : Nat → RetryEnv) (cache : Option CacheSt) (now : Int)

/-- The result slot of item `i` of a `Check` batch.  Items at or beyond
the index where the context was first observed cancelled receive
`Result{Domain: d, Error: ctx.Err()}`; a panicking worker's slot receives
the wrapped `ErrInternalPanic`; otherwise the slot is the item's
`checkSingle` outcome. -/
def checkSlot (cfg : Checker) (beh : Nat → ItemRun) (cancelAt : Option Nat) (ctxE : GoError)
    (domains : List String) (i : Nat) : Result :=
  let d := domains.getD i ""
  if (cancelAt.map fun c => decide (c ≤ i)).getD false then
    { Domain := d, Blocked := false, Server := "", Error := some ctxE }
  else
    match beh i with
    | .panics msg =>
      { Domain := d, Blocked := false, Server := "",
        Error := some (.wrapped .internalPanic msg) }
    | .completes env cache now => (checkSingleGo cfg env now d cache).1

/-- `Checker.Check(ctx, domains...)`: fail with `ErrNoDNSServers` when no
servers are configured; otherwise produce one pre-allocated slot per input
domain, in input order, and return `ctx.Err()` alongside when the context
was cancelled. -/
def CheckGo (cfg : Checker) (beh : Nat → ItemRun) (cancelAt : Option Nat) (ctxE : GoError)
    (domains : List String) : Except GoError (List Result × Option GoError) :=
  if cfg.servers.isEmpty then .error (.sentinel .noDNSServers)
  else
    .ok ((List.range domains.length).map (checkSlot cfg beh cancelAt ctxE domains),
      if cancelAt.isSome then some ctxE else none)

/-! ## Resolver registry (`option.go` `SetServers`/`DeleteServers`,
`checker.go` `Servers`) -/

/-- The inner loop of `SetServers` for one server: replace the first entry
sharing its address, else append at the end. -/
def upsertServer : List DNSServer → DNSServer → List DNSServer
  | [], server => [server]
  | s :: rest, server =>
    if s.Address == server.Address then server :: rest
    else s :: upsertServer rest server

/-- `Checker.SetServers(servers...)` on the current list: a no-op for zero
servers, else upsert each given server in order. -/
def SetServersGo (current : List DNSServer) (servers : List DNSServer) : List DNSServer :=
  if servers.isEmpty then current else servers.foldl upsertServer current

/-- `Checker.DeleteServers(addresses...)`: a no-op for zero addresses, else
keep exactly the entries whose address is not listed, in order. -/
def DeleteServersGo (current : List DNSServer) (addresses : List String) : List DNSServer :=
  if addresses.isEmpty then current
  else current.filter fun s => !(addresses.contains s.Address)

/-- `Checker.Servers()`: allocate a fresh slice of the same length and copy
the configured servers into it (`make` + `copy`), so the caller receives an
independent list with the same elements. -/
def ServersGo (cfg : Checker) : List DNSServer :=
  List.ofFn fun i : Fin cfg.servers.length => cfg.servers.get i

/-! ## Admission gate (`checker.go`, the `sem` channel of `Check` and
`DNSStatus`) -/

/-- The admission discipline of the dispatcher, as a transition relation on
the number of worker goroutines alive.  `acquire` is
`sem <- struct{}{}` followed by `go func(...)`: it only fires while fewer
than `limit` slots are held, since the buffered channel blocks when full.
`complete` is a worker finishing (normally or via its recovered panic):
its deferred `<-sem` releases the slot unconditionally. -/
inductive semStep (limit : Nat) : Nat → Nat → Prop
  | acquire {n : Nat} : n < limit → semStep limit n (n + 1)
  | complete {n : Nat} : semStep limit (n + 1) n

/-- The worker counts reachable from an idle dispatcher. -/
def semReachable (limit : Nat) (n : Nat) : Prop :=
  Relation.ReflTransGen (semStep limit) 0 n

/-! ## Derived predicates and concrete scenarios used by the claims -/

/-- Whether the exchange at attempt `k` would detect blocking. -/
def attemptBlocks (env : RetryEnv) (srv : DNSServer) (k : Nat) : Bool :=
  match env.probes k with
  | .err _ => false
  | .resp msg => containsKeyword (some msg) srv.Keyword

/-- Whether the exchange at attempt `k` would fail. -/
def attemptErrs (env : RetryEnv) (k : Nat) : Bool :=
  match env.probes k with
  | .err _ => true
  | .resp _ => false

/-- The Go-visible part of a retry outcome: the `(Result, error)` pair and
the number of exchanges performed. -/
def retryCore (o : RetryOutput) : Result × Option GoError × Nat := (o.result, o.err, o.probes)

/-- The resolver of the C1 witness. -/
def c1srv : DNSServer := ⟨"180.131.145.145", "internetpositif", "A"⟩

/-- A blocking response (CNAME redirect to the block page). -/
def c1msgBlocked : DNSMsg := ⟨[⟨"x.example. 3600 IN CNAME internetpositif.id."⟩], [], []⟩

/-- A clear response. -/
def c1msgClear : DNSMsg := ⟨[⟨"x.example. 60 IN A 93.184.216.34"⟩], [], []⟩

/-- The probe sequence [error, blocked, clear] of the claim's example. -/
def c1env : RetryEnv :=
  ⟨fun k => if k == 0 then ProbeStep.err (GoError.transport 1)
    else if k == 1 then ProbeStep.resp c1msgBlocked
    else ProbeStep.resp c1msgClear,
   fun _ => none⟩

/-- A clear response used by the C6 evaluation (no keyword inside). -/
def c6msg : DNSMsg := ⟨[⟨"example.com. 60 IN A 93.184.216.34"⟩], [], []⟩

/-- The resolver used by the C6 evaluation. -/
def c6srv : DNSServer := ⟨"180.131.144.144", "internetpositif", "A"⟩

/-- The C6 probe sequence [error, clear, clear] with the context never
cancelled. -/
def c6env : RetryEnv :=
  ⟨fun k => if k == 0 then ProbeStep.err (GoError.transport 7) else ProbeStep.resp c6msg,
   fun _ => none⟩

/-- A checker configuration used by concrete scenarios: the default Nawala
servers, default retries (2), default concurrency (100), and a TTL of
300s in nanoseconds. -/
def cfgDefault : Checker :=
  { servers := [⟨"180.131.144.144", "internetpositif", "A"⟩,
      ⟨"180.131.145.145", "internetpositif", "A"⟩],
    maxRetries := 2, concurrency := 100, cacheTTL := 300000000000 }

/-- An oracle whose every exchange fails (an unreachable resolver). -/
def envAllErr : RetryEnv := ⟨fun _ => ProbeStep.err (GoError.transport 0), fun _ => none⟩

/-- An oracle whose every exchange yields a clear response. -/
def envAllClear : RetryEnv := ⟨fun _ => ProbeStep.resp c1msgClear, fun _ => none⟩

/-- The per-resolver environment of the failover scenario: resolver 0
unreachable, every later resolver clear. -/
def c2env : Nat → RetryEnv := fun i => if i == 0 then envAllErr else envAllClear

/-- An oracle whose every exchange yields a blocking response. -/
def envAllBlocked : RetryEnv := ⟨fun _ => ProbeStep.resp c1msgBlocked, fun _ => none⟩

/-- The blocked-failover environment: resolver 0 unreachable, every later
resolver returns the blocking signature. -/
def c2envB : Nat → RetryEnv := fun i => if i == 0 then envAllErr else envAllBlocked

/-- The failover configuration: an unreachable resolver followed by a
reachable one, no retries. -/
def c2cfg : Checker :=
  { servers := [⟨"127.0.0.1:19998", "internetpositif", "A"⟩,
      ⟨"180.131.145.145", "internetpositif", "A"⟩],
    maxRetries := 0, concurrency := 100, cacheTTL := 1000 }

/-- A single-resolver configuration used by the idempotence witness. -/
def c7cfg : Checker :=
  { servers := [⟨"180.131.144.144", "internetpositif", "A"⟩],
    maxRetries := 0, concurrency := 100, cacheTTL := 1000 }

/-- The batch behaviour of the C3 witness: item 0 panics, the others
complete against a clear resolver and an empty cache. -/
def c3beh : Nat → ItemRun :=
  fun i => if i == 0 then ItemRun.panics "boom"
    else ItemRun.completes (fun _ => envAllClear) (some []) 0

/-! ## Basic lemmas -/

/-- The empty keyword is a substring of every record text. -/
theorem strContains_nil (l : List Char) : strContains l [] = true := by
  refine List.any_eq_true.2 ⟨0, by simp [List.mem_range], ?_⟩
  generalize l.drop 0 = m
  cases m <;> rfl

/-- `upsertServer` appends when no entry shares the address. -/
theorem upsertServer_append (cur : List DNSServer) (s : DNSServer)
    (h : ∀ x ∈ cur, x.Address ≠ s.Address) : upsertServer cur s = cur ++ [s] := by
  induction cur with
  | nil => rfl
  | cons a rest ih =>
    have ha : a.Address ≠ s.Address := h a (by simp)
    simp only [upsertServer, beq_iff_eq, if_neg ha, List.cons_append, List.cons.injEq,
      true_and]
    exact ih fun x hx => h x (by simp [hx])

/-- `upsertServer` replaces the first entry sharing the address, in place. -/
theorem upsertServer_replace (a b : List DNSServer) (x s : DNSServer)
    (hx : x.Address = s.Address) (h : ∀ y ∈ a, y.Address ≠ s.Address) :
    upsertServer (a ++ x :: b) s = a ++ s :: b := by
  induction a with
  | nil => simp [upsertServer, beq_iff_eq, hx]
  | cons y rest ih =>
    have hy : y.Address ≠ s.Address := h y (by simp)
    simp only [List.cons_append, upsertServer, beq_iff_eq, if_neg hy, List.cons.injEq,
      true_and]
    exact ih fun z hz => h z (by simp [hz])

/-! ## Domain validation lemmas -/

/-- `splitOnChar` never yields an empty list of labels. -/
theorem splitOnChar_ne_nil (sep : Char) (l : List Char) : splitOnChar sep l ≠ [] := by
  cases l with
  | nil => simp [splitOnChar]
  | cons a rest =>
    simp only [splitOnChar]
    split
    · simp
    · cases hr : splitOnChar sep rest <;> simp

/-- A character other than the separator lands inside one of the labels. -/
theorem splitOnChar_mem (sep : Char) (l : List Char) (c : Char) (hc : c ∈ l)
    (hne : c ≠ sep) : ∃ lab ∈ splitOnChar sep l, c ∈ lab := by
  induction l with
  | nil => cases hc
  | cons a rest ih =>
    rcases List.mem_cons.1 hc with rfl | hcr
    · have ha : ¬ (c == sep) = true := by simp [hne]
      simp only [splitOnChar]
      rw [if_neg ha]
      cases hr : splitOnChar sep rest with
      | nil => exact absurd hr (splitOnChar_ne_nil sep rest)
      | cons h t => exact ⟨c :: h, by simp, by simp⟩
    · obtain ⟨lab, hlab, hcl⟩ := ih hcr
      by_cases ha : (a == sep) = true
      · simp only [splitOnChar]
        rw [if_pos ha]
        exact ⟨lab, by simp [hlab], hcl⟩
      · simp only [splitOnChar]
        rw [if_neg ha]
        cases hr : splitOnChar sep rest with
        | nil => exact absurd hr (splitOnChar_ne_nil sep rest)
        | cons h t =>
          rw [hr] at hlab
          rcases List.mem_cons.1 hlab with rfl | hlab2
          · exact ⟨a :: lab, by simp, by simp [hcl]⟩
          · exact ⟨lab, by simp [hlab2], hcl⟩

/-- Without the separator in the input there is exactly one label. -/
theorem splitOnChar_not_mem_length (sep : Char) (l : List Char) (h : sep ∉ l) :
    (splitOnChar sep l).length = 1 := by
  induction l with
  | nil => rfl
  | cons a rest ih =>
    have ha : ¬ (a == sep) = true := by
      simp only [beq_iff_eq]
      rintro rfl
      exact h (by simp)
    have hr := ih fun hm => h (by simp [hm])
    simp only [splitOnChar]
    rw [if_neg ha]
    cases hq : splitOnChar sep rest with
    | nil => exact absurd hq (splitOnChar_ne_nil sep rest)
    | cons x t =>
      rw [hq] at hr
      simp only [List.length_cons] at hr ⊢
      omega

/-- One invalid label invalidates the whole label loop. -/
theorem labelsOK_false (lab : List Char) (hbad : isValidLabel lab = false) :
    ∀ labels : List (List Char), lab ∈ labels → labelsOK labels = false := by
  intro labels
  induction labels with
  | nil => intro h; cases h
  | cons a t ih =>
    intro hmem
    cases t with
    | nil =>
      have h1 : lab = a := by simpa using hmem
      subst h1
      simp [labelsOK, hbad]
    | cons b u =>
      rcases List.mem_cons.1 hmem with rfl | hmem2
      · simp [labelsOK, hbad]
      · simp [labelsOK, ih hmem2]

/-- A label with a leading or trailing hyphen is invalid. -/
theorem isValidLabel_hyphen (lab : List Char)
    (h : lab.head? = some '-' ∨ lab.getLast? = some '-') : isValidLabel lab = false := by
  unfold isValidLabel
  split
  · rfl
  · rw [if_pos]
    rcases h with h | h <;> simp [h]

/-- A label containing a disallowed character is invalid. -/
theorem isValidLabel_badChar (lab : List Char) (c : Char) (hc : c ∈ lab)
    (hbad : isLabelChar c = false) : isValidLabel lab = false := by
  unfold isValidLabel
  split
  · rfl
  split
  · rfl
  cases hall : lab.all isLabelChar
  · rfl
  · have := List.all_eq_true.1 hall c hc
    rw [hbad] at this
    cases this

/-- Non-ASCII characters fall outside every admitted label class. -/
theorem isLabelChar_high (c : Char) (h : 128 ≤ c.toNat) : isLabelChar c = false := by
  have h1 : c ≠ '-' := by rintro rfl; exact absurd h (by decide)
  have h2 : c ≠ '_' := by rintro rfl; exact absurd h (by decide)
  simp [isLabelChar, h1, h2]
  omega

/-- A non-dot character of the domain survives the trailing-dot trim. -/
theorem mem_goTrimSuffixDot (l : List Char) (c : Char) (hc : c ∈ l) (hne : c ≠ '.') :
    c ∈ goTrimSuffixDot l := by
  unfold goTrimSuffixDot
  split
  · rename_i hl
    rw [beq_iff_eq] at hl
    have hnil : l ≠ [] := by rintro rfl; simp at hl
    have hlast : l.getLast hnil = '.' := by
      have h2 := List.getLast?_eq_getLast l hnil
      rw [h2] at hl
      simpa using hl
    have hdecomp := List.dropLast_append_getLast hnil
    rw [hlast] at hdecomp
    rw [← hdecomp] at hc
    rcases List.mem_append.1 hc with h | h
    · exact h
    · simp at h
      exact absurd h hne
  · exact hc

/-! ## Retry loop lemmas -/

/-- One loop iteration whose exchange errors: record the error and continue. -/
theorem retryAux_step_err (domain : String) (srv : DNSServer) (env : RetryEnv)
    (fuel attempt : Nat) (lastErr : Option GoError) (best : Option Result) (e : GoError)
    (hc : env.ctxErrAtBackoff attempt = none) (hp : env.probes attempt = ProbeStep.err e) :
    retryCore (queryWithRetriesAux domain srv env (fuel + 1) attempt lastErr best) =
      (let o := queryWithRetriesAux domain srv env fuel (attempt + 1) (some e) best
       (o.result, o.err, o.probes + 1)) := by
  by_cases hw : 0 < attempt ∧ lastErr.isSome <;>
    simp [queryWithRetriesAux, retryCore, hw, hc, hp]

/-- One loop iteration whose exchange matches the keyword: return blocked
immediately. -/
theorem retryAux_step_block (domain : String) (srv : DNSServer) (env : RetryEnv)
    (fuel attempt : Nat) (lastErr : Option GoError) (best : Option Result) (msg : DNSMsg)
    (hc : env.ctxErrAtBackoff attempt = none) (hp : env.probes attempt = ProbeStep.resp msg)
    (hk : containsKeyword (some msg) srv.Keyword = true) :
    retryCore (queryWithRetriesAux domain srv env (fuel + 1) attempt lastErr best) =
      (⟨domain, true, srv.Address, none⟩, none, 1) := by
  by_cases hw : 0 < attempt ∧ lastErr.isSome <;>
    simp [queryWithRetriesAux, retryCore, hw, hc, hp, hk]

/-- One loop iteration whose exchange succeeds without a match: remember a
first clear outcome and continue. -/
theorem retryAux_step_clear (domain : String) (srv : DNSServer) (env : RetryEnv)
    (fuel attempt : Nat) (lastErr : Option GoError) (best : Option Result) (msg : DNSMsg)
    (hc : env.ctxErrAtBackoff attempt = none) (hp : env.probes attempt = ProbeStep.resp msg)
    (hk : containsKeyword (some msg) srv.Keyword = false) :
    retryCore (queryWithRetriesAux domain srv env (fuel + 1) attempt lastErr best) =
      (let o := queryWithRetriesAux domain srv env fuel (attempt + 1) lastErr
        (if best.isNone then some ⟨domain, false, srv.Address, none⟩ else best)
       (o.result, o.err, o.probes + 1)) := by
  by_cases hw : 0 < attempt ∧ lastErr.isSome <;>
    simp [queryWithRetriesAux, retryCore, hw, hc, hp, hk]

/-- The loop never performs more exchanges than it has iterations. -/
theorem retryAux_probes_le (domain : String) (srv : DNSServer) (env : RetryEnv) :
    ∀ fuel attempt lastErr best,
    (queryWithRetriesAux domain srv env fuel attempt lastErr best).probes ≤ fuel := by
  intro fuel
  induction fuel with
  | zero => intro attempt lastErr best; cases best <;> simp [queryWithRetriesAux]
  | succ n ih =>
    intro attempt lastErr best
    by_cases hw : 0 < attempt ∧ lastErr.isSome
    · simp only [queryWithRetriesAux, if_pos hw]
      cases hctx : env.ctxErrAtBackoff attempt with
      | some e => simp
      | none =>
        cases hp : env.probes attempt with
        | err e => simpa [hp] using ih (attempt + 1) (some e) best
        | resp msg =>
          by_cases hk : containsKeyword (some msg) srv.Keyword
          · simp [hp, hk]
          · simpa [hp, hk] using
              ih (attempt + 1) lastErr
                (if best.isNone then some ⟨domain, false, srv.Address, none⟩ else best)
    · simp only [queryWithRetriesAux, if_neg hw]
      cases hp : env.probes attempt with
      | err e => simpa [hp] using ih (attempt + 1) (some e) best
      | resp msg =>
        by_cases hk : containsKeyword (some msg) srv.Keyword
        · simp [hp, hk]
        · simpa [hp, hk] using
            ih (attempt + 1) lastErr
              (if best.isNone then some ⟨domain, false, srv.Address, none⟩ else best)

/-- Once a clear outcome is remembered and no later attempt matches the
keyword, the loop runs every remaining iteration and returns that outcome. -/
theorem retryAux_best_some (domain : String) (srv : DNSServer) (env : RetryEnv)
    (hnc : ∀ j, env.ctxErrAtBackoff j = none) (r : Result) :
    ∀ fuel attempt lastErr,
    (∀ j, attempt ≤ j → j < attempt + fuel → attemptBlocks env srv j = false) →
    retryCore (queryWithRetriesAux domain srv env fuel attempt lastErr (some r)) =
      (r, none, fuel) := by
  intro fuel
  induction fuel with
  | zero => intro attempt lastErr _; simp [queryWithRetriesAux, retryCore]
  | succ n ih =>
    intro attempt lastErr h
    cases hp : env.probes attempt with
    | err e =>
      rw [retryAux_step_err domain srv env n attempt lastErr (some r) e (hnc attempt) hp]
      have hrec := ih (attempt + 1) (some e) fun j h1 h2 => h j (by omega) (by omega)
      simp only [retryCore, Prod.mk.injEq] at hrec ⊢
      simp [hrec.1, hrec.2.1, hrec.2.2]
    | resp msg =>
      have hk : containsKeyword (some msg) srv.Keyword = false := by
        have := h attempt (Nat.le_refl _) (by omega)
        simpa [attemptBlocks, hp] using this
      rw [retryAux_step_clear domain srv env n attempt lastErr (some r) msg (hnc attempt) hp hk]
      have hrec := ih (attempt + 1) lastErr fun j h1 h2 => h j (by omega) (by omega)
      simp only [retryCore, Prod.mk.injEq] at hrec ⊢
      simp [hrec.1, hrec.2.1, hrec.2.2]

/-- When every remaining attempt errors, the loop runs them all and returns
the final attempt's error. -/
theorem retryAux_all_err (domain : String) (srv : DNSServer) (env : RetryEnv)
    (hnc : ∀ j, env.ctxErrAtBackoff j = none) :
    ∀ fuel attempt lastErr e,
    (∀ j, attempt ≤ j → j < attempt + fuel + 1 → attemptErrs env j = true) →
    env.probes (attempt + fuel) = ProbeStep.err e →
    retryCore (queryWithRetriesAux domain srv env (fuel + 1) attempt lastErr none) =
      (emptyResult, some e, fuel + 1) := by
  intro fuel
  induction fuel with
  | zero =>
    intro attempt lastErr e _ hlast
    rw [retryAux_step_err domain srv env 0 attempt lastErr none e (hnc attempt)
      (by simpa using hlast)]
    simp [queryWithRetriesAux]
  | succ n ih =>
    intro attempt lastErr e h hlast
    cases hp : env.probes attempt with
    | resp msg =>
      have := h attempt (Nat.le_refl _) (by omega)
      simp [attemptErrs, hp] at this
    | err e0 =>
      rw [retryAux_step_err domain srv env (n + 1) attempt lastErr none e0 (hnc attempt) hp]
      have hrec := ih (attempt + 1) (some e0) e
        (fun j h1 h2 => h j (by omega) (by omega)) (by rw [show attempt + 1 + n = attempt + (n + 1) by omega]; exact hlast)
      simp only [retryCore, Prod.mk.injEq] at hrec ⊢
      simp [hrec.1, hrec.2.1, hrec.2.2]

/-- When no remaining attempt matches the keyword but at least one
succeeds, the loop runs all remaining iterations and returns the clear
outcome for this resolver. -/
theorem retryAux_clear (domain : String) (srv : DNSServer) (env : RetryEnv)
    (hnc : ∀ j, env.ctxErrAtBackoff j = none) :
    ∀ fuel attempt lastErr,
    (∀ j, attempt ≤ j → j < attempt + fuel → attemptBlocks env srv j = false) →
    (∃ j, attempt ≤ j ∧ j < attempt + fuel ∧ attemptErrs env j = false) →
    retryCore (queryWithRetriesAux domain srv env fuel attempt lastErr none) =
      (⟨domain, false, srv.Address, none⟩, none, fuel) := by
  intro fuel
  induction fuel with
  | zero =>
    intro attempt lastErr _ hex
    obtain ⟨j, h1, h2, _⟩ := hex
    omega
  | succ n ih =>
    intro attempt lastErr h hex
    cases hp : env.probes attempt with
    | err e0 =>
      rw [retryAux_step_err domain srv env n attempt lastErr none e0 (hnc attempt) hp]
      obtain ⟨j, h1, h2, h3⟩ := hex
      have hj : attempt + 1 ≤ j := by
        rcases Nat.eq_or_lt_of_le h1 with rfl | hlt
        · simp [attemptErrs, hp] at h3
        · omega
      have hrec := ih (attempt + 1) (some e0)
        (fun j h1 h2 => h j (by omega) (by omega)) ⟨j, hj, by omega, h3⟩
      simp only [retryCore, Prod.mk.injEq] at hrec ⊢
      simp [hrec.1, hrec.2.1, hrec.2.2]
    | resp msg =>
      have hk : containsKeyword (some msg) srv.Keyword = false := by
        have := h attempt (Nat.le_refl _) (by omega)
        simpa [attemptBlocks, hp] using this
      rw [retryAux_step_clear domain srv env n attempt lastErr none msg (hnc attempt) hp hk]
      have hrec := retryAux_best_some domain srv env hnc ⟨domain, false, srv.Address, none⟩
        n (attempt + 1) lastErr (fun j h1 h2 => h j (by omega) (by omega))
      simp only [retryCore, Prod.mk.injEq] at hrec ⊢
      simp [hrec.1, hrec.2.1, hrec.2.2]

/-- When attempt `attempt + k` is the first to match the keyword and the
loop has more than `k` iterations left, it stops there with the blocked
outcome, having performed exactly `k + 1` exchanges. -/
theorem retryAux_block_at (domain : String) (srv : DNSServer) (env : RetryEnv)
    (hnc : ∀ j, env.ctxErrAtBackoff j = none) :
    ∀ k fuel attempt lastErr best, k < fuel →
    (∀ j, attempt ≤ j → j < attempt + k → attemptBlocks env srv j = false) →
    attemptBlocks env srv (attempt + k) = true →
    retryCore (queryWithRetriesAux domain srv env fuel attempt lastErr best) =
      (⟨domain, true, srv.Address, none⟩, none, k + 1) := by
  intro k
  induction k with
  | zero =>
    intro fuel attempt lastErr best hk _ hb
    obtain ⟨n, rfl⟩ : ∃ n, fuel = n + 1 := ⟨fuel - 1, by omega⟩
    cases hp : env.probes attempt with
    | err e0 => simp [attemptBlocks, hp] at hb
    | resp msg =>
      have hmatch : containsKeyword (some msg) srv.Keyword = true := by
        simpa [attemptBlocks, hp] using hb
      exact retryAux_step_block domain srv env n attempt lastErr best msg (hnc attempt) hp hmatch
  | succ m ih =>
    intro fuel attempt lastErr best hk h hb
    obtain ⟨n, rfl⟩ : ∃ n, fuel = n + 1 := ⟨fuel - 1, by omega⟩
    have hab : attemptBlocks env srv attempt = false := h attempt (Nat.le_refl _) (by omega)
    cases hp : env.probes attempt with
    | err e0 =>
      rw [retryAux_step_err domain srv env n attempt lastErr best e0 (hnc attempt) hp]
      have hrec := ih n (attempt + 1) (some e0) best (by omega)
        (fun j h1 h2 => h j (by omega) (by omega))
        (by rw [show attempt + 1 + m = attempt + (m + 1) by omega]; exact hb)
      simp only [retryCore, Prod.mk.injEq] at hrec ⊢
      simp [hrec.1, hrec.2.1, hrec.2.2]
    | resp msg =>
      have hkf : containsKeyword (some msg) srv.Keyword = false := by
        simpa [attemptBlocks, hp] using hab
      rw [retryAux_step_clear domain srv env n attempt lastErr best msg (hnc attempt) hp hkf]
      have hrec := ih n (attempt + 1) lastErr
        (if best.isNone then some ⟨domain, false, srv.Address, none⟩ else best) (by omega)
        (fun j h1 h2 => h j (by omega) (by omega))
        (by rw [show attempt + 1 + m = attempt + (m + 1) by omega]; exact hb)
      simp only [retryCore, Prod.mk.injEq] at hrec ⊢
      simp only [Option.isNone_iff_eq_none] at hrec
      simp [hrec.1, hrec.2.1, hrec.2.2]

/-! ## Failover loop lemmas -/

/-- `Get` on the empty map misses and leaves it empty. -/
theorem memoryCacheGet_empty (now : Int) (key : String) :
    memoryCacheGet [] now key = ((emptyResult, false), []) := rfl

/-- Map indexing after a map update under the same key. -/
theorem cacheLookup_insert (st : CacheSt) (key : String) (e : CacheEntry) :
    cacheLookup (cacheInsert st key e) key = some e := by
  induction st with
  | nil => simp [cacheInsert, cacheLookup]
  | cons p rest ih =>
    obtain ⟨k, e0⟩ := p
    by_cases hk : (k == key) = true
    · simp [cacheInsert, hk, cacheLookup]
    · simp [cacheInsert, hk, cacheLookup, ih]

/-- The exhausted failover loop: every server failed. -/
theorem checkLoop_nil (cfg : Checker) (env : Nat → RetryEnv) (now : Int) (domain : String)
    (cache : Option CacheSt) :
    checkSingleLoop cfg env now domain [] cache =
      ({ Domain := domain, Blocked := false, Server := "",
         Error := some (.sentinel .allDNSFailed) }, cache, 0) := rfl

/-- A cache hit at the current server returns the cached result at once:
no exchange runs and no later server is consulted. -/
theorem checkLoop_hit (cfg : Checker) (env : Nat → RetryEnv) (now : Int) (domain : String)
    (i : Nat) (srv : DNSServer) (rest : List (Nat × DNSServer)) (st : CacheSt)
    (h : (memoryCacheGet st now (cacheKey domain srv (parseQueryType srv.QueryType))).1.2
      = true) :
    checkSingleLoop cfg env now domain ((i, srv) :: rest) (some st) =
      ((memoryCacheGet st now (cacheKey domain srv (parseQueryType srv.QueryType))).1.1,
       some (memoryCacheGet st now (cacheKey domain srv (parseQueryType srv.QueryType))).2,
       0) := by
  simp [checkSingleLoop, h]

/-- A cache miss followed by a failing retry controller moves on to the
remaining servers, accumulating the exchanges spent on this one. -/
theorem checkLoop_miss_err (cfg : Checker) (env : Nat → RetryEnv) (now : Int)
    (domain : String) (i : Nat) (srv : DNSServer) (rest : List (Nat × DNSServer))
    (st : CacheSt) (e : GoError)
    (hmiss : (memoryCacheGet st now (cacheKey domain srv (parseQueryType srv.QueryType))).1.2
      = false)
    (herr : (queryWithRetries cfg.maxRetries domain srv (env i)).err = some e) :
    checkSingleLoop cfg env now domain ((i, srv) :: rest) (some st) =
      (let o := checkSingleLoop cfg env now domain rest
        (some (memoryCacheGet st now (cacheKey domain srv (parseQueryType srv.QueryType))).2)
       (o.1, o.2.1,
        (queryWithRetries cfg.maxRetries domain srv (env i)).probes + o.2.2)) := by
  simp [checkSingleLoop, hmiss, herr]

/-- A cache miss followed by a successful retry controller stores the
result under the composite key and returns it without consulting any later
server. -/
theorem checkLoop_miss_ok (cfg : Checker) (env : Nat → RetryEnv) (now : Int)
    (domain : String) (i : Nat) (srv : DNSServer) (rest : List (Nat × DNSServer))
    (st : CacheSt)
    (hmiss : (memoryCacheGet st now (cacheKey domain srv (parseQueryType srv.QueryType))).1.2
      = false)
    (hok : (queryWithRetries cfg.maxRetries domain srv (env i)).err = none) :
    checkSingleLoop cfg env now domain ((i, srv) :: rest) (some st) =
      ((queryWithRetries cfg.maxRetries domain srv (env i)).result,
       some (memoryCacheSet
        (memoryCacheGet st now (cacheKey domain srv (parseQueryType srv.QueryType))).2
        cfg.cacheTTL now (cacheKey domain srv (parseQueryType srv.QueryType))
        (queryWithRetries cfg.maxRetries domain srv (env i)).result),
       (queryWithRetries cfg.maxRetries domain srv (env i)).probes) := by
  simp [checkSingleLoop, hmiss, hok]

/-- `enumFrom` distributes over append. -/
theorem enumFrom_append_srv (xs ys : List DNSServer) :
    ∀ n, (xs ++ ys).enumFrom n = xs.enumFrom n ++ ys.enumFrom (n + xs.length) := by
  induction xs with
  | nil => intro n; simp
  | cons a t ih =>
    intro n
    show (n, a) :: List.enumFrom (n + 1) (t ++ ys) =
      ((n, a) :: List.enumFrom (n + 1) t) ++ List.enumFrom (n + (t.length + 1)) ys
    have harg : n + 1 + t.length = n + (t.length + 1) := by omega
    rw [ih (n + 1), harg, List.cons_append]

/-- A prefix of resolvers that all miss the empty cache and whose retry
controllers then fail is skipped: the loop's outcome and final cache over
`l ++ l2` from the empty cache are those of `l2` from the empty cache. -/
theorem checkLoop_skip_errs (cfg : Checker) (env : Nat → RetryEnv) (now : Int)
    (domain : String) :
    ∀ l l2 : List (Nat × DNSServer),
    (∀ p ∈ l, ∃ e,
      (queryWithRetries cfg.maxRetries domain p.2 (env p.1)).err = some e) →
    (checkSingleLoop cfg env now domain (l ++ l2) (some [])).1 =
      (checkSingleLoop cfg env now domain l2 (some [])).1
    ∧ (checkSingleLoop cfg env now domain (l ++ l2) (some [])).2.1 =
      (checkSingleLoop cfg env now domain l2 (some [])).2.1 := by
  intro l
  induction l with
  | nil => intro l2 _; exact ⟨rfl, rfl⟩
  | cons p t ih =>
    intro l2 h
    obtain ⟨i, srv⟩ := p
    obtain ⟨e, he⟩ := h (i, srv) (by simp)
    rw [List.cons_append,
      checkLoop_miss_err cfg env now domain i srv (t ++ l2) [] e rfl he]
    simp only [memoryCacheGet_empty]
    exact ih l2 fun q hq => h q (by simp [hq])

/-- Over an empty cache, when every listed server's oracle errors on every
attempt (and the context stays live), the failover loop fails as a whole:
it produces the `ErrAllDNSFailed` outcome and leaves the cache empty. -/
theorem checkLoop_allFail (cfg : Checker) (env : Nat → RetryEnv) (now : Int)
    (domain : String)
    (henv : ∀ i j, j ≤ cfg.maxRetries → attemptErrs (env i) j = true)
    (hnc : ∀ i j, (env i).ctxErrAtBackoff j = none) :
    ∀ l : List (Nat × DNSServer),
    (checkSingleLoop cfg env now domain l (some [])).1 =
      { Domain := domain, Blocked := false, Server := "",
        Error := some (.sentinel .allDNSFailed) }
    ∧ (checkSingleLoop cfg env now domain l (some [])).2.1 = some [] := by
  intro l
  induction l with
  | nil => exact ⟨rfl, rfl⟩
  | cons p rest ih =>
    obtain ⟨i, srv⟩ := p
    have hmiss : (memoryCacheGet [] now
        (cacheKey domain srv (parseQueryType srv.QueryType))).1.2 = false := rfl
    obtain ⟨e, he⟩ : ∃ e, (env i).probes cfg.maxRetries = ProbeStep.err e := by
      have := henv i cfg.maxRetries (Nat.le_refl _)
      unfold attemptErrs at this
      cases hp : (env i).probes cfg.maxRetries
      · exact ⟨_, rfl⟩
      · rw [hp] at this; cases this
    have herr : (queryWithRetries cfg.maxRetries domain srv (env i)).err = some e := by
      have hcore := retryAux_all_err domain srv (env i) (hnc i) cfg.maxRetries 0 none e
        (fun j _ h2 => henv i j (by omega)) (by simpa using he)
      simp only [retryCore, Prod.mk.injEq] at hcore
      exact hcore.2.1
    rw [checkLoop_miss_err cfg env now domain i srv rest [] e hmiss herr]
    exact ⟨ih.1, ih.2⟩

/-! ## Claim theorems -/

/-- C1: the retry controller performs at most `maxRetries + 1` exchanges;
with the context never cancelled, (i) if attempt `k ≤ maxRetries` is the
first whose response matches the blocking keyword, the blocked outcome is
returned immediately after exactly `k + 1` exchanges — the remaining
attempts never run; (ii) if no attempt matches and at least one attempt
succeeds, the clear outcome for this resolver is returned with no error
only after all `maxRetries + 1` attempts have run; (iii) if every attempt
errors, the zero result is returned with the last attempt's transport
error. -/
theorem C1_retry_policy :
    (∀ (maxRetries : Nat) (domain : String) (srv : DNSServer) (env : RetryEnv),
      (queryWithRetries maxRetries domain srv env).probes ≤ maxRetries + 1)
    ∧ (∀ (maxRetries : Nat) (domain : String) (srv : DNSServer) (env : RetryEnv) (k : Nat),
        (∀ j, env.ctxErrAtBackoff j = none) → k ≤ maxRetries →
        (∀ j, j < k → attemptBlocks env srv j = false) →
        attemptBlocks env srv k = true →
        retryCore (queryWithRetries maxRetries domain srv env) =
          (⟨domain, true, srv.Address, none⟩, none, k + 1))
    ∧ (∀ (maxRetries : Nat) (domain : String) (srv : DNSServer) (env : RetryEnv),
        (∀ j, env.ctxErrAtBackoff j = none) →
        (∀ j, j ≤ maxRetries → attemptBlocks env srv j = false) →
        (∃ j, j ≤ maxRetries ∧ attemptErrs env j = false) →
        retryCore (queryWithRetries maxRetries domain srv env) =
          (⟨domain, false, srv.Address, none⟩, none, maxRetries + 1))
    ∧ (∀ (maxRetries : Nat) (domain : String) (srv : DNSServer) (env : RetryEnv)
        (e : GoError),
        (∀ j, env.ctxErrAtBackoff j = none) →
        (∀ j, j ≤ maxRetries → attemptErrs env j = true) →
        env.probes maxRetries = ProbeStep.err e →
        retryCore (queryWithRetries maxRetries domain srv env) =
          (emptyResult, some e, maxRetries + 1)) := by
  refine ⟨?_, ?_, ?_, ?_⟩
  · intro maxRetries domain srv env
    exact retryAux_probes_le domain srv env (maxRetries + 1) 0 none none
  · intro maxRetries domain srv env k hnc hk h hb
    exact retryAux_block_at domain srv env hnc k (maxRetries + 1) 0 none none (by omega)
      (fun j _ h2 => h j (by omega)) (by simpa using hb)
  · intro maxRetries domain srv env hnc h hex
    obtain ⟨j, h1, h2⟩ := hex
    exact retryAux_clear domain srv env hnc (maxRetries + 1) 0 none
      (fun j _ h2 => h j (by omega)) ⟨j, by omega, by omega, h2⟩
  · intro maxRetries domain srv env e hnc h hlast
    exact retryAux_all_err domain srv env hnc maxRetries 0 none e
      (fun j _ h2 => h j (by omega)) (by simpa using hlast)

/-- Witness for C1: on the probe sequence [error, blocked, clear]
(maxRetries 2) the controller reports blocked with no error after 2
exchanges — the later clear probe never runs, so it cannot override the
blocking signal. -/
theorem C1_retry_policy_witness :
    retryCore (queryWithRetries 2 "x.example" c1srv c1env) =
      (⟨"x.example", true, c1srv.Address, none⟩, none, 2) :=
  C1_retry_policy.2.1 2 "x.example" c1srv c1env 1 (fun _ => rfl) (by omega)
    (fun j hj => by
      have h0 : j = 0 := by omega
      subst h0
      decide)
    (by decide)

/-- C2: the failover controller on a validated domain.  (i) A cache hit
under the first configured resolver's composite key is returned
immediately, with zero exchanges; (ii) at ANY position of the iteration
and over any cache state, a hit under the current resolver's composite key
returns the cached result with zero exchanges and no later resolver is
consulted; (iii) at any position, a miss followed by a without-error retry
return — blocked or clear alike — stores that result under the composite
key and returns it, consulting no later resolver; (iv) at any position, a
miss followed by a failing retry controller moves on to the remaining
resolvers in order; (v) on a miss at the first resolver whose retry
controller then clears, the clear result is stored and returned; (vi) at
the `checkSingle` level over an empty cache, if every resolver before
position `p` fails and the resolver at `p` returns without error (blocked
or clear), the outcome is that resolver's result, stored under its
composite key; (vii) when every resolver's oracle errors on all attempts,
the outcome carries `ErrAllDNSFailed`; (viii) for resolvers
[unreachable, reachable] the outcome's `Server` is the reachable
resolver's address and its `Error` is nil. -/
theorem C2_failover_policy :
    (∀ (cfg : Checker) (env : Nat → RetryEnv) (now : Int) (domain : String)
      (st : CacheSt) (srv : DNSServer) (rest : List DNSServer),
      cfg.servers = srv :: rest →
      IsValidDomain (normalizeDomain domain) = true →
      (memoryCacheGet st now
        (cacheKey (normalizeDomain domain) srv (parseQueryType srv.QueryType))).1.2 = true →
      checkSingleGo cfg env now domain (some st) =
        ((memoryCacheGet st now (cacheKey (normalizeDomain domain) srv
            (parseQueryType srv.QueryType))).1.1,
         some (memoryCacheGet st now (cacheKey (normalizeDomain domain) srv
            (parseQueryType srv.QueryType))).2, 0))
    ∧ (∀ (cfg : Checker) (env : Nat → RetryEnv) (now : Int) (domain : String)
        (i : Nat) (srv : DNSServer) (rest : List (Nat × DNSServer)) (st : CacheSt),
        (memoryCacheGet st now
          (cacheKey domain srv (parseQueryType srv.QueryType))).1.2 = true →
        checkSingleLoop cfg env now domain ((i, srv) :: rest) (some st) =
          ((memoryCacheGet st now
            (cacheKey domain srv (parseQueryType srv.QueryType))).1.1,
           some (memoryCacheGet st now
            (cacheKey domain srv (parseQueryType srv.QueryType))).2, 0))
    ∧ (∀ (cfg : Checker) (env : Nat → RetryEnv) (now : Int) (domain : String)
        (i : Nat) (srv : DNSServer) (rest : List (Nat × DNSServer)) (st : CacheSt),
        (memoryCacheGet st now
          (cacheKey domain srv (parseQueryType srv.QueryType))).1.2 = false →
        (queryWithRetries cfg.maxRetries domain srv (env i)).err = none →
        checkSingleLoop cfg env now domain ((i, srv) :: rest) (some st) =
          ((queryWithRetries cfg.maxRetries domain srv (env i)).result,
           some (memoryCacheSet
            (memoryCacheGet st now
              (cacheKey domain srv (parseQueryType srv.QueryType))).2
            cfg.cacheTTL now (cacheKey domain srv (parseQueryType srv.QueryType))
            (queryWithRetries cfg.maxRetries domain srv (env i)).result),
           (queryWithRetries cfg.maxRetries domain srv (env i)).probes))
    ∧ (∀ (cfg : Checker) (env : Nat → RetryEnv) (now : Int) (domain : String)
        (i : Nat) (srv : DNSServer) (rest : List (Nat × DNSServer)) (st : CacheSt)
        (e : GoError),
        (memoryCacheGet st now
          (cacheKey domain srv (parseQueryType srv.QueryType))).1.2 = false →
        (queryWithRetries cfg.maxRetries domain srv (env i)).err = some e →
        checkSingleLoop cfg env now domain ((i, srv) :: rest) (some st) =
          (let o := checkSingleLoop cfg env now domain rest
            (some (memoryCacheGet st now
              (cacheKey domain srv (parseQueryType srv.QueryType))).2)
           (o.1, o.2.1,
            (queryWithRetries cfg.maxRetries domain srv (env i)).probes + o.2.2)))
    ∧ (∀ (cfg : Checker) (env : Nat → RetryEnv) (now : Int) (domain : String)
        (st : CacheSt) (srv : DNSServer) (rest : List DNSServer),
        cfg.servers = srv :: rest →
        IsValidDomain (normalizeDomain domain) = true →
        (memoryCacheGet st now
          (cacheKey (normalizeDomain domain) srv (parseQueryType srv.QueryType))).1.2
          = false →
        (∀ j, j ≤ cfg.maxRetries →
          attemptBlocks (env 0) srv j = false) →
        (∃ j, j ≤ cfg.maxRetries ∧ attemptErrs (env 0) j = false) →
        (∀ j, (env 0).ctxErrAtBackoff j = none) →
        checkSingleGo cfg env now domain (some st) =
          (⟨normalizeDomain domain, false, srv.Address, none⟩,
           some (memoryCacheSet
            (memoryCacheGet st now (cacheKey (normalizeDomain domain) srv
              (parseQueryType srv.QueryType))).2
            cfg.cacheTTL now
            (cacheKey (normalizeDomain domain) srv (parseQueryType srv.QueryType))
            ⟨normalizeDomain domain, false, srv.Address, none⟩),
           cfg.maxRetries + 1))
    ∧ (∀ (cfg : Checker) (env : Nat → RetryEnv) (now : Int) (domain : String)
        (pre post : List DNSServer) (srv : DNSServer),
        cfg.servers = pre ++ srv :: post →
        IsValidDomain (normalizeDomain domain) = true →
        (∀ p ∈ pre.enum, ∃ e, (queryWithRetries cfg.maxRetries
          (normalizeDomain domain) p.2 (env p.1)).err = some e) →
        (queryWithRetries cfg.maxRetries (normalizeDomain domain) srv
          (env pre.length)).err = none →
        (checkSingleGo cfg env now domain (some [])).1 =
          (queryWithRetries cfg.maxRetries (normalizeDomain domain) srv
            (env pre.length)).result
        ∧ (checkSingleGo cfg env now domain (some [])).2.1 =
          some (memoryCacheSet [] cfg.cacheTTL now
            (cacheKey (normalizeDomain domain) srv (parseQueryType srv.QueryType))
            (queryWithRetries cfg.maxRetries (normalizeDomain domain) srv
              (env pre.length)).result))
    ∧ (∀ (cfg : Checker) (env : Nat → RetryEnv) (now : Int) (domain : String),
        IsValidDomain (normalizeDomain domain) = true →
        (∀ i j, j ≤ cfg.maxRetries → attemptErrs (env i) j = true) →
        (∀ i j, (env i).ctxErrAtBackoff j = none) →
        (checkSingleGo cfg env now domain (some [])).1 =
          { Domain := normalizeDomain domain, Blocked := false, Server := "",
            Error := some (.sentinel .allDNSFailed) })
    ∧ (∀ (cfg : Checker) (env : Nat → RetryEnv) (now : Int) (domain : String)
        (s1 s2 : DNSServer), cfg.servers = [s1, s2] →
        IsValidDomain (normalizeDomain domain) = true →
        (∀ j, j ≤ cfg.maxRetries → attemptErrs (env 0) j = true) →
        (∀ j, (env 0).ctxErrAtBackoff j = none) →
        (∀ j, j ≤ cfg.maxRetries → attemptBlocks (env 1) s2 j = false) →
        (∃ j, j ≤ cfg.maxRetries ∧ attemptErrs (env 1) j = false) →
        (∀ j, (env 1).ctxErrAtBackoff j = none) →
        (checkSingleGo cfg env now domain (some [])).1 =
          ⟨normalizeDomain domain, false, s2.Address, none⟩) := by
  refine ⟨?_, ?_, ?_, ?_, ?_, ?_, ?_, ?_⟩
  · intro cfg env now domain st srv rest hs hv hhit
    simp only [checkSingleGo, hs, hv, if_true]
    rw [show (srv :: rest).enum = (0, srv) :: rest.enumFrom 1 from rfl]
    exact checkLoop_hit cfg env now (normalizeDomain domain) 0 srv _ st hhit
  · intro cfg env now domain i srv rest st hhit
    exact checkLoop_hit cfg env now domain i srv rest st hhit
  · intro cfg env now domain i srv rest st hmiss hok
    exact checkLoop_miss_ok cfg env now domain i srv rest st hmiss hok
  · intro cfg env now domain i srv rest st e hmiss herr
    exact checkLoop_miss_err cfg env now domain i srv rest st e hmiss herr
  · intro cfg env now domain st srv rest hs hv hmiss hnb hresp hnc
    have hq : retryCore (queryWithRetries cfg.maxRetries (normalizeDomain domain) srv
        (env 0)) = (⟨normalizeDomain domain, false, srv.Address, none⟩, none,
          cfg.maxRetries + 1) :=
      retryAux_clear (normalizeDomain domain) srv (env 0) hnc (cfg.maxRetries + 1) 0 none
        (fun j _ h2 => hnb j (by omega))
        (by obtain ⟨j, h1, h2⟩ := hresp; exact ⟨j, by omega, by omega, h2⟩)
    simp only [retryCore, Prod.mk.injEq] at hq
    simp only [checkSingleGo, hs, hv, if_true]
    rw [show (srv :: rest).enum = (0, srv) :: rest.enumFrom 1 from rfl]
    rw [checkLoop_miss_ok cfg env now (normalizeDomain domain) 0 srv _ st hmiss hq.2.1]
    rw [hq.1, hq.2.2]
  · intro cfg env now domain pre post srv hs hv hpre hok
    simp only [checkSingleGo, hs, hv, if_true]
    have henum : (pre ++ srv :: post).enum =
        pre.enum ++ (pre.length, srv) :: post.enumFrom (pre.length + 1) := by
      show (pre ++ srv :: post).enumFrom 0 = _
      rw [enumFrom_append_srv pre (srv :: post) 0, Nat.zero_add]
      rfl
    rw [henum]
    have hskip := checkLoop_skip_errs cfg env now (normalizeDomain domain) pre.enum
      ((pre.length, srv) :: post.enumFrom (pre.length + 1)) hpre
    have htail := checkLoop_miss_ok cfg env now (normalizeDomain domain) pre.length srv
      (post.enumFrom (pre.length + 1)) [] rfl hok
    refine ⟨hskip.1.trans ?_, hskip.2.trans ?_⟩
    · rw [htail]
    · rw [htail]
      rfl
  · intro cfg env now domain hv henv hnc
    simp only [checkSingleGo, hv, if_true]
    exact (checkLoop_allFail cfg env now (normalizeDomain domain) henv hnc _).1
  · intro cfg env now domain s1 s2 hs hv henv0 hnc0 hnb1 hresp1 hnc1
    obtain ⟨e, he⟩ : ∃ e, (env 0).probes cfg.maxRetries = ProbeStep.err e := by
      have hae := henv0 cfg.maxRetries (Nat.le_refl _)
      unfold attemptErrs at hae
      cases hp : (env 0).probes cfg.maxRetries
      · exact ⟨_, rfl⟩
      · rw [hp] at hae; cases hae
    have herr : (queryWithRetries cfg.maxRetries (normalizeDomain domain) s1
        (env 0)).err = some e := by
      have hcore : retryCore (queryWithRetries cfg.maxRetries (normalizeDomain domain) s1
          (env 0)) = (emptyResult, some e, cfg.maxRetries + 1) :=
        retryAux_all_err (normalizeDomain domain) s1 (env 0) hnc0 cfg.maxRetries 0 none e
          (fun j _ h2 => henv0 j (by omega)) (by simpa using he)
      simp only [retryCore, Prod.mk.injEq] at hcore
      exact hcore.2.1
    have hq : retryCore (queryWithRetries cfg.maxRetries (normalizeDomain domain) s2
        (env 1)) = (⟨normalizeDomain domain, false, s2.Address, none⟩, none,
          cfg.maxRetries + 1) :=
      retryAux_clear (normalizeDomain domain) s2 (env 1) hnc1 (cfg.maxRetries + 1) 0 none
        (fun j _ h2 => hnb1 j (by omega))
        (by obtain ⟨j, h1, h2⟩ := hresp1; exact ⟨j, by omega, by omega, h2⟩)
    simp only [retryCore, Prod.mk.injEq] at hq
    simp only [checkSingleGo, hs, hv, if_true]
    rw [show ([s1, s2] : List DNSServer).enum = [(0, s1), (1, s2)] from rfl]
    rw [checkLoop_miss_err cfg env now (normalizeDomain domain) 0 s1 [(1, s2)] [] e rfl
      herr]
    simp only [memoryCacheGet_empty]
    rw [checkLoop_miss_ok cfg env now (normalizeDomain domain) 1 s2 [] [] rfl hq.2.1]
    exact hq.1

/-- Witness for C2: the failover scenario [unreachable, reachable] over an
empty cache.  Clear variant: the outcome comes from the second resolver's
address with a nil error.  Blocked variant: the second resolver's blocked
without-error result also wins the failover and is stored in the cache
under its composite key. -/
theorem C2_failover_policy_witness :
    (checkSingleGo c2cfg c2env 0 "example.com" (some [])).1 =
      ⟨"example.com", false, "180.131.145.145", none⟩
    ∧ (checkSingleGo c2cfg c2envB 0 "example.com" (some [])).1 =
        ⟨"example.com", true, "180.131.145.145", none⟩
    ∧ (checkSingleGo c2cfg c2envB 0 "example.com" (some [])).2.1 =
        some (memoryCacheSet [] c2cfg.cacheTTL 0
          (cacheKey "example.com" ⟨"180.131.145.145", "internetpositif", "A"⟩
            (parseQueryType "A"))
          ⟨"example.com", true, "180.131.145.145", none⟩) := by
  have hblocked := C2_failover_policy.2.2.2.2.2.1 c2cfg c2envB 0 "example.com"
    [⟨"127.0.0.1:19998", "internetpositif", "A"⟩] []
    ⟨"180.131.145.145", "internetpositif", "A"⟩ rfl (by decide)
    (by
      intro p hp
      have hp0 : p = (0, ⟨"127.0.0.1:19998", "internetpositif", "A"⟩) := by
        simpa [List.enum, List.enumFrom] using hp
      subst hp0
      exact ⟨GoError.transport 0, by decide⟩)
    (by decide)
  refine ⟨?_, hblocked.1.trans (by decide), hblocked.2.trans (by decide)⟩
  exact C2_failover_policy.2.2.2.2.2.2.2 c2cfg c2env 0 "example.com"
    ⟨"127.0.0.1:19998", "internetpositif", "A"⟩ ⟨"180.131.145.145", "internetpositif", "A"⟩
    rfl (by decide)
    (fun j hj => by
      have h0 : j = 0 := Nat.le_zero.mp hj
      subst h0
      decide)
    (fun _ => rfl)
    (fun j hj => by
      have h0 : j = 0 := Nat.le_zero.mp hj
      subst h0
      decide)
    ⟨0, Nat.le_refl 0, by decide⟩
    (fun _ => rfl)

/-- C5: `IsValidDomain` rejects the malformed families — the empty string,
single-label names (no dot after trimming the optional root dot), names
with a label that starts or ends with a hyphen, and names containing a
non-ASCII character — and `checkSingle` on any input whose normalized form
is invalid returns the outcome wrapping `ErrInvalidDomain`, with the cache
untouched and zero DNS exchanges. -/
theorem C5_invalid_domains :
    IsValidDomain "" = false
    ∧ (∀ s : String, '.' ∉ goTrimSuffixDot s.data → IsValidDomain s = false)
    ∧ (∀ (s : String) (lab : List Char),
        lab ∈ splitOnChar '.' (goTrimSuffixDot s.data) →
        lab.head? = some '-' ∨ lab.getLast? = some '-' → IsValidDomain s = false)
    ∧ (∀ (s : String) (c : Char), c ∈ s.data → 128 ≤ c.toNat → IsValidDomain s = false)
    ∧ (∀ (cfg : Checker) (env : Nat → RetryEnv) (now : Int) (domain : String)
        (cache : Option CacheSt), IsValidDomain (normalizeDomain domain) = false →
        checkSingleGo cfg env now domain cache =
          ({ Domain := normalizeDomain domain, Blocked := false, Server := "",
             Error := some (.wrapped .invalidDomain (normalizeDomain domain)) },
           cache, 0)) := by
  refine ⟨by decide, ?_, ?_, ?_, ?_⟩
  · intro s h
    simp only [IsValidDomain]
    split
    · rfl
    · rw [if_pos]
      rw [splitOnChar_not_mem_length '.' _ h]
      omega
  · intro s lab hmem hhyp
    have hbad := isValidLabel_hyphen lab hhyp
    simp only [IsValidDomain]
    split
    · rfl
    split
    · rfl
    exact labelsOK_false lab hbad _ hmem
  · intro s c hc h128
    have hcd : c ≠ '.' := by rintro rfl; exact absurd h128 (by decide)
    have hmem := mem_goTrimSuffixDot s.data c hc hcd
    obtain ⟨lab, hlab, hcl⟩ := splitOnChar_mem '.' _ c hmem hcd
    have hbad := isValidLabel_badChar lab c hcl (isLabelChar_high c h128)
    simp only [IsValidDomain]
    split
    · rfl
    split
    · rfl
    exact labelsOK_false lab hbad _ hlab
  · intro cfg env now domain cache h
    simp [checkSingleGo, h]

/-- Witness for C5 on the claim's malformed families: a single-label name,
a leading-hyphen label, a trailing-hyphen label, a non-ASCII name, and the
`checkSingle` outcome for the empty string. -/
theorem C5_invalid_domains_witness :
    IsValidDomain "localhost" = false
    ∧ IsValidDomain "-example.com" = false
    ∧ IsValidDomain "example-.com" = false
    ∧ IsValidDomain "exämple.com" = false
    ∧ checkSingleGo cfgDefault (fun _ => envAllErr) 0 "" (some []) =
        ({ Domain := "", Blocked := false, Server := "",
           Error := some (.wrapped .invalidDomain "") }, some [], 0) := by
  refine ⟨?_, ?_, ?_, ?_, ?_⟩
  · exact C5_invalid_domains.2.1 "localhost" (by decide)
  · exact C5_invalid_domains.2.2.1 "-example.com" "-example".data (by decide)
      (Or.inl (by decide))
  · exact C5_invalid_domains.2.2.1 "example-.com" "example-".data (by decide)
      (Or.inr (by decide))
  · exact C5_invalid_domains.2.2.2.1 "exämple.com" 'ä' (by decide) (by decide)
  · exact C5_invalid_domains.2.2.2.2 cfgDefault (fun _ => envAllErr) 0 "" (some [])
      (by decide)

/-- C3: the dispatcher, with servers configured, completes the batch with
exactly one slot per input domain in input order; a slot at or beyond the
index where cancellation was observed carries the context error; a
panicking worker's slot carries the wrapped `ErrInternalPanic` (matching
`errors.Is`) while the batch still completes; a non-cancelled completing
item's slot is its `checkSingle` outcome; and making one item panic never
changes any sibling slot. -/
theorem C3_dispatcher_slots :
    ∀ (cfg : Checker) (beh : Nat → ItemRun) (cancelAt : Option Nat) (ctxE : GoError)
      (domains : List String), cfg.servers ≠ [] →
      CheckGo cfg beh cancelAt ctxE domains =
        .ok ((List.range domains.length).map (checkSlot cfg beh cancelAt ctxE domains),
          if cancelAt.isSome then some ctxE else none)
      ∧ ((List.range domains.length).map
          (checkSlot cfg beh cancelAt ctxE domains)).length = domains.length
      ∧ (∀ i c, cancelAt = some c → c ≤ i →
          checkSlot cfg beh cancelAt ctxE domains i =
            ⟨domains.getD i "", false, "", some ctxE⟩)
      ∧ (∀ i msg, (∀ c, cancelAt = some c → i < c) → beh i = ItemRun.panics msg →
          checkSlot cfg beh cancelAt ctxE domains i =
            ⟨domains.getD i "", false, "", some (.wrapped .internalPanic msg)⟩
          ∧ errorIs (.wrapped .internalPanic msg) .internalPanic = true)
      ∧ (∀ i env cache now, (∀ c, cancelAt = some c → i < c) →
          beh i = ItemRun.completes env cache now →
          checkSlot cfg beh cancelAt ctxE domains i =
            (checkSingleGo cfg env now (domains.getD i "") cache).1)
      ∧ (∀ i j msg, i ≠ j →
          checkSlot cfg (Function.update beh j (ItemRun.panics msg)) cancelAt ctxE
            domains i = checkSlot cfg beh cancelAt ctxE domains i) := by
  intro cfg beh cancelAt ctxE domains hs
  have hcond : ∀ i, (∀ c, cancelAt = some c → i < c) →
      ((cancelAt.map fun c => decide (c ≤ i)).getD false) = false := by
    intro i h
    cases cancelAt with
    | none => rfl
    | some c => simpa using Nat.not_le.mpr (h c rfl)
  refine ⟨?_, by simp, ?_, ?_, ?_, ?_⟩
  · simp [CheckGo, List.isEmpty_iff, hs]
  · intro i c hc hle
    subst hc
    simp [checkSlot, hle]
  · intro i msg hcan hbeh
    refine ⟨?_, rfl⟩
    simp [checkSlot, hcond i hcan, hbeh]
  · intro i env cache now hcan hbeh
    simp [checkSlot, hcond i hcan, hbeh]
  · intro i j msg hne
    simp [checkSlot, Function.update_noteq hne]

/-- Witness for C3: a two-domain batch where item 0 panics — the batch
returns normally with both slots, and item 0's slot wraps
`ErrInternalPanic` while item 1 is untouched. -/
theorem C3_dispatcher_slots_witness :
    CheckGo cfgDefault c3beh none GoError.ctxCanceled ["a.com", "b.com"] =
      .ok ((List.range 2).map
        (checkSlot cfgDefault c3beh none GoError.ctxCanceled ["a.com", "b.com"]), none)
    ∧ checkSlot cfgDefault c3beh none GoError.ctxCanceled ["a.com", "b.com"] 0 =
        ⟨"a.com", false, "", some (.wrapped .internalPanic "boom")⟩ := by
  refine ⟨?_, ?_⟩
  · exact (C3_dispatcher_slots cfgDefault c3beh none GoError.ctxCanceled
      ["a.com", "b.com"] (by decide)).1
  · exact ((C3_dispatcher_slots cfgDefault c3beh none GoError.ctxCanceled
      ["a.com", "b.com"] (by decide)).2.2.2.1 0 "boom" (fun c hc => nomatch hc) rfl).1

/-- C7 (amended): with caching enabled, when the first call at time `t1`
misses the cache at the first configured resolver and the retry controller
then returns without error there — blocked or clear alike — storing that
outcome under the composite key, any second call for the same domain at a
time `t2` within the TTL (`¬ t2 > t1 + cacheTTL`), against an unchanged
configuration and whatever the network does meanwhile, returns the
bit-identical outcome and performs zero DNS exchanges. -/
theorem C7_idempotence_first_resolver :
    ∀ (cfg : Checker) (env env2 : Nat → RetryEnv) (t1 t2 : Int) (domain : String)
      (st : CacheSt) (srv : DNSServer) (rest : List DNSServer),
      cfg.servers = srv :: rest →
      IsValidDomain (normalizeDomain domain) = true →
      (memoryCacheGet st t1 (cacheKey (normalizeDomain domain) srv
        (parseQueryType srv.QueryType))).1.2 = false →
      (queryWithRetries cfg.maxRetries (normalizeDomain domain) srv (env 0)).err
        = none →
      ¬ t2 > t1 + cfg.cacheTTL →
      (checkSingleGo cfg env2 t2 domain
          (checkSingleGo cfg env t1 domain (some st)).2.1).1 =
        (checkSingleGo cfg env t1 domain (some st)).1
      ∧ (checkSingleGo cfg env2 t2 domain
          (checkSingleGo cfg env t1 domain (some st)).2.1).2.2 = 0 := by
  intro cfg env env2 t1 t2 domain st srv rest hs hv hmiss hok httl
  have hcall1 : checkSingleGo cfg env t1 domain (some st) =
      ((queryWithRetries cfg.maxRetries (normalizeDomain domain) srv (env 0)).result,
       some (memoryCacheSet
        (memoryCacheGet st t1 (cacheKey (normalizeDomain domain) srv
          (parseQueryType srv.QueryType))).2
        cfg.cacheTTL t1
        (cacheKey (normalizeDomain domain) srv (parseQueryType srv.QueryType))
        (queryWithRetries cfg.maxRetries (normalizeDomain domain) srv (env 0)).result),
       (queryWithRetries cfg.maxRetries (normalizeDomain domain) srv (env 0)).probes)
      := by
    simp only [checkSingleGo, hs, hv, if_true]
    rw [show (srv :: rest).enum = (0, srv) :: rest.enumFrom 1 from rfl]
    exact checkLoop_miss_ok cfg env t1 (normalizeDomain domain) 0 srv _ st hmiss hok
  have hget : memoryCacheGet
      (memoryCacheSet
        (memoryCacheGet st t1 (cacheKey (normalizeDomain domain) srv
          (parseQueryType srv.QueryType))).2
        cfg.cacheTTL t1
        (cacheKey (normalizeDomain domain) srv (parseQueryType srv.QueryType))
        (queryWithRetries cfg.maxRetries (normalizeDomain domain) srv (env 0)).result)
      t2 (cacheKey (normalizeDomain domain) srv (parseQueryType srv.QueryType)) =
      (((queryWithRetries cfg.maxRetries (normalizeDomain domain) srv (env 0)).result,
        true),
       memoryCacheSet
        (memoryCacheGet st t1 (cacheKey (normalizeDomain domain) srv
          (parseQueryType srv.QueryType))).2
        cfg.cacheTTL t1
        (cacheKey (normalizeDomain domain) srv (parseQueryType srv.QueryType))
        (queryWithRetries cfg.maxRetries (normalizeDomain domain) srv (env 0)).result)
      := by
    simp [memoryCacheSet, memoryCacheGet, cacheLookup_insert, httl]
  rw [hcall1]
  simp only [checkSingleGo, hs, hv, if_true]
  rw [show (srv :: rest).enum = (0, srv) :: rest.enumFrom 1 from rfl]
  rw [checkLoop_hit cfg env2 t2 (normalizeDomain domain) 0 srv _ _
    (by rw [hget])]
  rw [hget]
  exact ⟨rfl, rfl⟩

/-- Witness for C7 (amended): one reachable resolver, empty cache, calls at
times 0 and 500 with a TTL of 1000 — the second call returns the identical
outcome with zero exchanges. -/
theorem C7_idempotence_first_resolver_witness :
    (checkSingleGo c7cfg (fun _ => envAllClear) 500 "example.com"
        (checkSingleGo c7cfg (fun _ => envAllClear) 0 "example.com" (some [])).2.1).1 =
      (checkSingleGo c7cfg (fun _ => envAllClear) 0 "example.com" (some [])).1
    ∧ (checkSingleGo c7cfg (fun _ => envAllClear) 500 "example.com"
        (checkSingleGo c7cfg (fun _ => envAllClear) 0 "example.com" (some [])).2.1).2.2
      = 0 :=
  C7_idempotence_first_resolver c7cfg (fun _ => envAllClear) (fun _ => envAllClear)
    0 500 "example.com" [] ⟨"180.131.144.144", "internetpositif", "A"⟩ [] rfl
    (by decide) rfl (by decide) (by decide)

/-- C7 (counterexample): in the failover scenario — resolver 0 unreachable,
resolver 1 reachable, unchanged configuration and network, both calls at
time 0 (well within the TTL) — the first call caches only resolver 1's
outcome, so the second call still probes resolver 0 over the network: it
performs 1 DNS exchange, not zero, even though it returns the bit-identical
outcome. -/
theorem C7_idempotence_counterexample :
    (checkSingleGo c2cfg c2env 0 "example.com"
        (checkSingleGo c2cfg c2env 0 "example.com" (some [])).2.1).2.2 = 1
    ∧ (checkSingleGo c2cfg c2env 0 "example.com"
        (checkSingleGo c2cfg c2env 0 "example.com" (some [])).2.1).1 =
      (checkSingleGo c2cfg c2env 0 "example.com" (some [])).1 := by
  decide

/-- C4: `memoryCache.Get` never returns an entry strictly after its expiry
instant: a hit implies the stored entry's `expiresAt` is not before `now`
and the hit value is that entry's result; an absent or expired key misses
(the expired one through the double-checked lazy delete); and the
write-locked delete removes the entry only when its `expiresAt` still
equals the observed timestamp, leaving any entry with a different
(fresher) timestamp untouched. -/
theorem C4_cache_lazy_expiry :
    (∀ (st : CacheSt) (now : Int) (key : String),
      (memoryCacheGet st now key).1.2 = true →
        ∃ e, cacheLookup st key = some e ∧ ¬ now > e.expiresAt ∧
          (memoryCacheGet st now key).1.1 = e.result)
    ∧ (∀ (st : CacheSt) (now : Int) (key : String),
        cacheLookup st key = none →
        memoryCacheGet st now key = ((emptyResult, false), st))
    ∧ (∀ (st : CacheSt) (now : Int) (key : String) (e : CacheEntry),
        cacheLookup st key = some e → now > e.expiresAt →
        memoryCacheGet st now key = ((emptyResult, false), memoryCacheLazyDelete st key e))
    ∧ (∀ (st2 : CacheSt) (key : String) (observed cur : CacheEntry),
        cacheLookup st2 key = some cur → cur.expiresAt ≠ observed.expiresAt →
        memoryCacheLazyDelete st2 key observed = st2)
    ∧ (∀ (st2 : CacheSt) (key : String) (observed cur : CacheEntry),
        cacheLookup st2 key = some cur → cur.expiresAt = observed.expiresAt →
        memoryCacheLazyDelete st2 key observed = cacheErase st2 key) := by
  refine ⟨?_, ?_, ?_, ?_, ?_⟩
  · intro st now key h
    cases hl : cacheLookup st key with
    | none => simp [memoryCacheGet, hl] at h
    | some e =>
      by_cases hx : now > e.expiresAt
      · simp [memoryCacheGet, hl, hx] at h
      · exact ⟨e, rfl, hx, by simp [memoryCacheGet, hl, hx]⟩
  · intro st now key h
    simp [memoryCacheGet, h]
  · intro st now key e hl hx
    simp [memoryCacheGet, hl, hx]
  · intro st2 key observed cur hl hne
    simp [memoryCacheLazyDelete, hl, beq_iff_eq, hne]
  · intro st2 key observed cur hl heq
    simp [memoryCacheLazyDelete, hl, beq_iff_eq, heq]

/-- Witness for C4 at a concrete one-entry cache: a live entry (now 5,
expiry 10) hits with its stored result, and the write-locked delete leaves
the entry alone when the observed timestamp (7) differs from the stored
one (10). -/
theorem C4_cache_lazy_expiry_witness :
    (∃ e, cacheLookup [("k", ⟨emptyResult, 10⟩)] "k" = some e ∧ ¬ (5 : Int) > e.expiresAt ∧
      (memoryCacheGet [("k", ⟨emptyResult, 10⟩)] 5 "k").1.1 = e.result)
    ∧ memoryCacheLazyDelete [("k", ⟨emptyResult, 10⟩)] "k" ⟨emptyResult, 7⟩ =
        [("k", ⟨emptyResult, 10⟩)] :=
  ⟨C4_cache_lazy_expiry.1 [("k", ⟨emptyResult, 10⟩)] 5 "k" (by decide),
   C4_cache_lazy_expiry.2.2.2.1 [("k", ⟨emptyResult, 10⟩)] "k" ⟨emptyResult, 7⟩
     ⟨emptyResult, 10⟩ (by decide) (by decide)⟩

/-- C8: the resolver registry operations.  `SetServers` with zero servers
and `DeleteServers` with zero addresses are no-ops; a non-empty
`SetServers` upserts each given server in order, where one upsert replaces
the first entry sharing the address in place and otherwise appends at the
end; `DeleteServers` keeps exactly the entries whose address is not listed,
as an order-preserving sublist; and `Servers` returns a fresh copy equal to
the configured list. -/
theorem C8_registry_ops :
    (∀ cur : List DNSServer, SetServersGo cur [] = cur)
    ∧ (∀ cur : List DNSServer, ∀ addrs : List String, addrs = [] →
        DeleteServersGo cur addrs = cur)
    ∧ (∀ (cur servers : List DNSServer), servers ≠ [] →
        SetServersGo cur servers = servers.foldl upsertServer cur)
    ∧ (∀ (cur : List DNSServer) (s : DNSServer), (∀ x ∈ cur, x.Address ≠ s.Address) →
        SetServersGo cur [s] = cur ++ [s])
    ∧ (∀ (a b : List DNSServer) (x s : DNSServer), x.Address = s.Address →
        (∀ y ∈ a, y.Address ≠ s.Address) →
        SetServersGo (a ++ x :: b) [s] = a ++ s :: b)
    ∧ (∀ (cur : List DNSServer) (addrs : List String), addrs ≠ [] →
        (DeleteServersGo cur addrs).Sublist cur
          ∧ ∀ x, x ∈ DeleteServersGo cur addrs ↔
              x ∈ cur ∧ addrs.contains x.Address = false)
    ∧ (∀ cfg : Checker, ServersGo cfg = cfg.servers) := by
  refine ⟨?_, ?_, ?_, ?_, ?_, ?_, ?_⟩
  · intro cur; simp [SetServersGo]
  · intro cur addrs h; simp [DeleteServersGo, h]
  · intro cur servers h
    simp [SetServersGo, List.isEmpty_iff, h]
  · intro cur s h
    simpa [SetServersGo] using upsertServer_append cur s h
  · intro a b x s hx h
    simpa [SetServersGo] using upsertServer_replace a b x s hx h
  · intro cur addrs h
    have hne : ¬ addrs.isEmpty := by simpa [List.isEmpty_iff] using h
    constructor
    · simp only [DeleteServersGo, if_neg hne]
      exact List.filter_sublist cur
    · intro x
      simp only [DeleteServersGo, if_neg hne, List.mem_filter, Bool.not_eq_eq_eq_not,
        Bool.not_true]
  · intro cfg
    exact List.ofFn_get cfg.servers

/-- Witness for C8: the amended-free conjuncts applied at a concrete
registry: appending a new address, replacing an existing one in place, and
deleting by address. -/
theorem C8_registry_ops_witness :
    SetServersGo [⟨"1.1.1.1", "a", "A"⟩] [⟨"2.2.2.2", "b", "A"⟩] =
      [⟨"1.1.1.1", "a", "A"⟩, ⟨"2.2.2.2", "b", "A"⟩]
    ∧ SetServersGo [⟨"1.1.1.1", "a", "A"⟩, ⟨"3.3.3.3", "c", "A"⟩] [⟨"3.3.3.3", "x", "TXT"⟩] =
      [⟨"1.1.1.1", "a", "A"⟩, ⟨"3.3.3.3", "x", "TXT"⟩]
    ∧ (DeleteServersGo [⟨"1.1.1.1", "a", "A"⟩, ⟨"3.3.3.3", "c", "A"⟩] ["1.1.1.1"]).Sublist
        [⟨"1.1.1.1", "a", "A"⟩, ⟨"3.3.3.3", "c", "A"⟩] := by
  refine ⟨?_, ?_, ?_⟩
  · exact C8_registry_ops.2.2.2.1 [⟨"1.1.1.1", "a", "A"⟩] ⟨"2.2.2.2", "b", "A"⟩
      (by decide)
  · exact C8_registry_ops.2.2.2.2.1 [⟨"1.1.1.1", "a", "A"⟩] [] ⟨"3.3.3.3", "c", "A"⟩
      ⟨"3.3.3.3", "x", "TXT"⟩ (by decide) (by decide)
  · exact (C8_registry_ops.2.2.2.2.2.1 [⟨"1.1.1.1", "a", "A"⟩, ⟨"3.3.3.3", "c", "A"⟩]
      ["1.1.1.1"] (by decide)).1

/-- C9: along every execution of the dispatcher's admission discipline —
a worker goroutine is spawned only after a semaphore slot is acquired, and
the slot is released unconditionally when the worker completes (panic
included) — the number of live workers reachable from the idle state never
exceeds the admission limit. -/
theorem C9_semaphore_bound (limit n : Nat) (h : semReachable limit n) : n ≤ limit := by
  induction h with
  | refl => exact Nat.zero_le _
  | tail _ step ih =>
    cases step with
    | acquire hlt => omega
    | complete => omega

/-- Witness for C9: with the default limit 100 (the instrumented scenario
dispatches 500 items through it), the state with two live workers is
reachable and the bound applies to it. -/
theorem C9_semaphore_bound_witness : semReachable 100 2 ∧ 2 ≤ 100 := by
  have hp : semReachable 100 2 :=
    Relation.ReflTransGen.tail
      (Relation.ReflTransGen.tail Relation.ReflTransGen.refl (semStep.acquire (by decide)))
      (semStep.acquire (by decide))
  exact ⟨hp, C9_semaphore_bound 100 2 hp⟩

/-- C10: the empty keyword matches every non-nil response that has at least
one record in some section, a nil response matches no keyword, and a
resolver whose configured `Keyword` is empty classifies a domain as
blocked at its first successful probe. -/
theorem C10_empty_keyword :
    (∀ msg : DNSMsg, msg.Answer ≠ [] ∨ msg.Ns ≠ [] ∨ msg.Extra ≠ [] →
      containsKeyword (some msg) "" = true)
    ∧ (∀ kw : String, containsKeyword none kw = false)
    ∧ (∀ (maxRetries : Nat) (domain : String) (srv : DNSServer) (env : RetryEnv)
        (msg : DNSMsg), srv.Keyword = "" → env.probes 0 = ProbeStep.resp msg →
        msg.Answer ≠ [] ∨ msg.Ns ≠ [] ∨ msg.Extra ≠ [] →
        queryWithRetries maxRetries domain srv env =
          { result := ⟨domain, true, srv.Address, none⟩,
            err := none, probes := 1, events := [RetryEvent.probe 0] }) := by
  have hmain : ∀ msg : DNSMsg, msg.Answer ≠ [] ∨ msg.Ns ≠ [] ∨ msg.Extra ≠ [] →
      containsKeyword (some msg) "" = true := by
    intro msg hne
    have hsec : ∃ sec ∈ [msg.Answer, msg.Ns, msg.Extra], sec ≠ [] := by
      rcases hne with h | h | h
      · exact ⟨msg.Answer, by simp, h⟩
      · exact ⟨msg.Ns, by simp, h⟩
      · exact ⟨msg.Extra, by simp, h⟩
    obtain ⟨sec, hmem, hne'⟩ := hsec
    obtain ⟨rr, hrr⟩ := List.exists_mem_of_ne_nil sec hne'
    refine List.any_eq_true.2 ⟨sec, hmem, ?_⟩
    exact List.any_eq_true.2 ⟨rr, hrr, strContains_nil _⟩
  refine ⟨hmain, fun _ => rfl, ?_⟩
  intro maxRetries domain srv env msg hkw hp hne
  have hmatch : containsKeyword (some msg) srv.Keyword = true := hkw ▸ hmain msg hne
  simp [queryWithRetries, queryWithRetriesAux, hp, hmatch]

/-- Witness for C10: a response with one answer record matches the empty
keyword, and one probe suffices to flag a domain blocked against a
keywordless resolver. -/
theorem C10_empty_keyword_witness :
    containsKeyword (some ⟨[⟨"a. 60 IN A 1.2.3.4"⟩], [], []⟩) "" = true
    ∧ queryWithRetries 2 "a.com" ⟨"9.9.9.9", "", "A"⟩
        ⟨fun _ => ProbeStep.resp ⟨[⟨"a. 60 IN A 1.2.3.4"⟩], [], []⟩, fun _ => none⟩ =
        { result := ⟨"a.com", true, "9.9.9.9", none⟩,
          err := none, probes := 1, events := [RetryEvent.probe 0] } :=
  ⟨C10_empty_keyword.1 ⟨[⟨"a. 60 IN A 1.2.3.4"⟩], [], []⟩ (by simp),
   C10_empty_keyword.2.2 2 "a.com" ⟨"9.9.9.9", "", "A"⟩
     ⟨fun _ => ProbeStep.resp ⟨[⟨"a. 60 IN A 1.2.3.4"⟩], [], []⟩, fun _ => none⟩
     ⟨[⟨"a. 60 IN A 1.2.3.4"⟩], [], []⟩ rfl rfl (by simp)⟩

/-- C6: evaluating `queryWithRetries` (maxRetries 2) on the probe sequence
[error, clear, clear] shows a completed 2-second backoff wait between the
two successful clear probes (attempts 1 and 2), because the gate
`attempt > 0 && lastErr != nil` still sees the error recorded at attempt 0.
This contradicts the claim (and the function's own doc comment) that no
wait is ever inserted between two successful clear probes. -/
theorem C6_backoff_between_clear_probes :
    (queryWithRetries 2 "example.com" c6srv c6env).events =
      [RetryEvent.probe 0, RetryEvent.wait 1 1000000000, RetryEvent.probe 1,
       RetryEvent.wait 2 2000000000, RetryEvent.probe 2]
    ∧ c6env.probes 1 = ProbeStep.resp c6msg
    ∧ c6env.probes 2 = ProbeStep.resp c6msg
    ∧ containsKeyword (some c6msg) c6srv.Keyword = false
    ∧ (queryWithRetries 2 "example.com" c6srv c6env).result =
        { Domain := "example.com", Blocked := false, Server := "180.131.144.144",
          Error := none } := by
  decide

end Nawala
